import Mathlib

set_option maxRecDepth 1000000

/-!
Verification of the Tether archetype scoring core (`app.py`).

The Python text of the core is embedded shallowly:

* Python strings are modelled as `List Char`; `str.lower` is modelled by
  `Char.toLower` (faithful on ASCII, which covers every configured keyword).
* The token scan `re.findall(r'\b\w+\b', text)` extracts maximal runs of
  word characters (`[A-Za-z0-9_]` in the ASCII range); `tokenize` below
  computes exactly those runs.
* Python integers are modelled by `Nat`.  The two fractional multipliers of
  `analyze_archetype` act on scores that are multiples of 10 well inside the
  exactly-representable double range, where `int(b * 1.5) = 3*b/2` and
  `int(o * 0.2) = o/5` hold exactly; they are embedded as those integer
  divisions.
* The percentage arithmetic of `get_archetype_percentages` is genuinely
  floating point, and its rounding behaviour is observable, so it is
  modelled faithfully: `flround` rounds a rational to 53 significant bits
  (round to nearest, ties to even, unbounded exponent — no input of the
  program leaves the normal double range), mirroring one IEEE-754 binary64
  operation, and Python's `round` on the resulting double value is
  round-half-to-even on the exact rational it denotes.
-/

namespace Tether

/-- A character counted by `\w` in the ASCII range: letters, digits, `_`. -/
def isWordChar (c : Char) : Bool := c.isAlphanum || c == '_'

/-- Accumulator-style splitter: `tokAux acc s` returns the maximal runs of
word characters in `acc.reverse ++ s`, given that `acc.reverse` is a run of
word characters immediately preceding `s`. -/
def tokAux : List Char → List Char → List (List Char)
  | acc, [] => if acc.isEmpty then [] else [acc.reverse]
  | acc, c :: cs =>
    if isWordChar c then tokAux (c :: acc) cs
    else if acc.isEmpty then tokAux [] cs else acc.reverse :: tokAux [] cs

/-- `re.findall(r'\b\w+\b', s)`: the maximal runs of word characters of `s`. -/
def tokenize (s : List Char) : List (List Char) := tokAux [] s

/-- `pat.isPrefixOf s` written out explicitly. -/
def startsWith : List Char → List Char → Bool
  | [], _ => true
  | _ :: _, [] => false
  | p :: ps, c :: cs => p == c && startsWith ps cs

/-- Python's `pat in s` on strings: `pat` occurs contiguously in `s`. -/
def containsSub (s pat : List Char) : Bool :=
  (List.range (s.length + 1)).any fun i => startsWith pat (s.drop i)

/-- Keyword list of the Bridge archetype (`BRIDGE_VERBS` in `app.py`). -/
def BRIDGE_VERBS : List (List Char) :=
  (["negotiate", "close", "prospect", "canvass", "pitch", "lobby", "advocate",
    "rally", "galvanize", "broker", "influence", "charm", "convert", "recruit",
    "source", "interview", "hire", "onboard", "persuade", "sell", "upsell",
    "win", "secure", "capture", "retain", "deal", "network",
    "align", "unify", "integrate", "merge", "mentor", "coach", "empower",
    "facilitate", "mediate", "liaise", "collaborate", "partner", "guide",
    "teach", "train", "present", "speak", "communicate", "translate",
    "bridge", "connect", "represent", "champion", "evangelize", "foster",
    "cultivate", "nurture", "relationship", "stakeholder"] : List String).map
    String.data

/-- Keyword list of the Builder archetype (`BUILDER_VERBS` in `app.py`). -/
def BUILDER_VERBS : List (List Char) :=
  (["build", "architect", "engineer", "develop", "code", "program", "design",
    "create", "construct", "forge", "implement", "deploy", "launch", "ship",
    "prototype", "draft", "compose", "write", "author", "fabricate", "assemble",
    "invent", "innovate", "pioneer", "found", "establish", "generate", "produce",
    "craft", "devise", "formulate", "conceptualize", "model"] : List String).map
    String.data

/-- Keyword list of the Operator archetype (`OPERATOR_VERBS` in `app.py`). -/
def OPERATOR_VERBS : List (List Char) :=
  (["manage", "operate", "run", "maintain", "support", "administer", "optimize",
    "streamline", "scale", "execute", "process", "handle", "oversee", "supervise",
    "direct", "coordinate", "monitor", "track", "report", "analyze", "audit",
    "ensure", "enforce", "comply", "regulate", "budget", "forecast", "schedule",
    "logistics", "inventory", "efficiency", "workflow", "systematize", "organize"]
    : List String).map String.data

/-- Commercial-context phrases (`SALES_KEYWORDS` in `app.py`). -/
def SALES_KEYWORDS : List (List Char) :=
  (["sales", "account", "business development", "biz dev", "recruiter",
    "talent acquisition", "pr", "public relations", "brand", "marketing",
    "client", "customer success"] : List String).map String.data

/-- Executive-context phrases (`EXECUTIVE_KEYWORDS` in `app.py`). -/
def EXECUTIVE_KEYWORDS : List (List Char) :=
  (["chief", "president", "vp", "vice president", "head of", "director",
    "founder", "c-suite", "principal"] : List String).map String.data

/-- `text.lower()` (ASCII model). -/
def text_lower (text : List Char) : List Char := text.map Char.toLower

/-- `words = re.findall(r'\b\w+\b', text_lower)`. -/
def words (text : List Char) : List (List Char) := tokenize (text_lower text)

/-- `sum(10 for w in ws if w in lex)`. -/
def hit_sum (ws : List (List Char)) (lex : List (List Char)) : Nat :=
  ((ws.filter fun w => lex.contains w).foldl (fun acc _ => acc + 10) 0)

/-- `builder_score = sum(10 for w in words if w in BUILDER_VERBS)`.
The Builder score is never touched by the two adjustments. -/
def builder_score (text : List Char) : Nat := hit_sum (words text) BUILDER_VERBS

/-- `operator_score = sum(10 for w in words if w in OPERATOR_VERBS)`
(its value before the executive shift). -/
def operator_base (text : List Char) : Nat := hit_sum (words text) OPERATOR_VERBS

/-- `bridge_score = sum(10 for w in words if w in BRIDGE_VERBS)`
(its value before the two adjustments). -/
def bridge_base (text : List Char) : Nat := hit_sum (words text) BRIDGE_VERBS

/-- `is_commercial = any(k in text_lower for k in SALES_KEYWORDS)`. -/
def is_commercial (text : List Char) : Bool :=
  SALES_KEYWORDS.any fun k => containsSub (text_lower text) k

/-- `is_executive = any(k in text_lower for k in EXECUTIVE_KEYWORDS)`. -/
def is_executive (text : List Char) : Bool :=
  EXECUTIVE_KEYWORDS.any fun k => containsSub (text_lower text) k

/-- The Bridge score after Adjustment A:
`if is_commercial: bridge_score = int(bridge_score * 1.5)`.
`bridge_base` is a multiple of 10, so the double product is exact and
`int` truncation is `3*b/2` in integers. -/
def bridge_afterA (text : List Char) : Nat :=
  if is_commercial text then bridge_base text * 3 / 2 else bridge_base text

/-- Adjustment B's shift: `shift = int(operator_score * 0.2)` when
`is_executive`, else nothing is shifted.  `operator_base` is a multiple of
10, so the double product rounds to the exact value `2n` and `int`
truncation is division by 5. -/
def exec_shift (text : List Char) : Nat :=
  if is_executive text then operator_base text / 5 else 0

/-- The final Operator score: `operator_score -= shift`. -/
def operator_score (text : List Char) : Nat := operator_base text - exec_shift text

/-- The final Bridge score: `bridge_score += shift` (after Adjustment A). -/
def bridge_score (text : List Char) : Nat := bridge_afterA text + exec_shift text

/-- The dictionary returned by `analyze_archetype`. -/
structure ScoreSet where
  Builder : Nat
  Operator : Nat
  Bridge : Nat
  Total : Nat
deriving DecidableEq, Repr

/-- `analyze_archetype(text)`: keyword scores, the two contextual
adjustments, and the all-zero sentinel with `Total = 1`. -/
def analyze_archetype (text : List Char) : ScoreSet :=
  let total := builder_score text + operator_score text + bridge_score text
  if total = 0 then ⟨0, 0, 0, 1⟩
  else ⟨builder_score text, operator_score text, bridge_score text, total⟩

/-- Binary logarithm on `Nat` by explicit fuel (the fuel `n` itself always
suffices), written structurally so that it evaluates inside the kernel. -/
def natLog2Aux : Nat → Nat → Nat
  | 0, _ => 0
  | fuel + 1, n => if 2 ≤ n then natLog2Aux fuel (n / 2) + 1 else 0

/-- `⌊log₂ n⌋` for `1 ≤ n` (and `0` at `0`). -/
def natLog2 (n : Nat) : Nat := natLog2Aux n n

/-- `⌊log₂ q⌋` of a positive rational. -/
def ilog2q (q : ℚ) : ℤ :=
  if (2 : ℚ) ^ ((natLog2 q.num.toNat : ℤ) - (natLog2 q.den : ℤ)) ≤ q
  then (natLog2 q.num.toNat : ℤ) - (natLog2 q.den : ℤ)
  else (natLog2 q.num.toNat : ℤ) - (natLog2 q.den : ℤ) - 1

/-- Round a rational to the nearest integer, ties to even — the rounding of
IEEE-754 arithmetic and of Python's `round` on a double value. -/
def roundHalfEven (q : ℚ) : ℤ :=
  if q - ⌊q⌋ < 1 / 2 then ⌊q⌋
  else if 1 / 2 < q - ⌊q⌋ then ⌊q⌋ + 1
  else if ⌊q⌋ % 2 = 0 then ⌊q⌋ else ⌊q⌋ + 1

/-- Round a nonnegative rational to 53 significant bits, to nearest with
ties to even: the value an IEEE-754 binary64 operation returns for the
exact result `q` (exponents unbounded; all values of this program are far
inside the normal double range). -/
def flround (q : ℚ) : ℚ :=
  if q ≤ 0 then 0
  else (roundHalfEven (q * 2 ^ (52 - ilog2q q)) : ℚ) / 2 ^ (52 - ilog2q q)

/-- `round((score / total) * 100)` exactly as Python evaluates it: a correctly
rounded double division, a correctly rounded double multiplication by 100,
then `round` (half to even) on the resulting double. -/
def pct (score total : Nat) : ℤ :=
  roundHalfEven (flround (flround ((score : ℚ) / (total : ℚ)) * 100))

/-- The `pcts` dictionary built by `get_archetype_percentages`. -/
structure Pcts where
  Builder : ℤ
  Operator : ℤ
  Bridge : ℤ
deriving DecidableEq, Repr

/-- The three rounded percentages of a `ScoreSet`. -/
def pctOf (s : ScoreSet) : Pcts :=
  ⟨pct s.Builder s.Total, pct s.Operator s.Total, pct s.Bridge s.Total⟩

/-- `pcts.items()` in its fixed insertion order Builder, Operator, Bridge. -/
def pairsOf (p : Pcts) : List (String × ℤ) :=
  [("Builder", p.Builder), ("Operator", p.Operator), ("Bridge", p.Bridge)]

/-- Stable insertion before the first element of not-larger percentage. -/
def insertDesc (x : String × ℤ) : List (String × ℤ) → List (String × ℤ)
  | [] => [x]
  | y :: ys => if y.2 ≤ x.2 then x :: y :: ys else y :: insertDesc x ys

/-- `sorted(pcts.items(), key=lambda x: x[1], reverse=True)`: Python's sort
is stable, and with `reverse=True` it keeps the original relative order of
equal keys while sorting descending.  On this three-element list the stable
insertion sort below computes exactly that. -/
def sortDesc : List (String × ℤ) → List (String × ℤ)
  | [] => []
  | x :: xs => insertDesc x (sortDesc xs)

/-- `sorted_pcts` for a `ScoreSet`. -/
def sorted_pcts_of (s : ScoreSet) : List (String × ℤ) :=
  sortDesc (pairsOf (pctOf s))

/-- `gap = primary[1] - secondary[1]` (`primary`, `secondary` being
`sorted_pcts[0]`, `sorted_pcts[1]`, which always exist). -/
def gapOf (s : ScoreSet) : ℤ :=
  ((sorted_pcts_of s).getD 0 ("", 0)).2 - ((sorted_pcts_of s).getD 1 ("", 0)).2

/-- `is_hybrid = gap < 20`. -/
def is_hybrid_of (s : ScoreSet) : Bool := gapOf s < 20

/-- `get_archetype_percentages(scores)` returns `(pcts, sorted_pcts, is_hybrid)`. -/
def get_archetype_percentages (s : ScoreSet) :
    Pcts × List (String × ℤ) × Bool :=
  (pctOf s, sorted_pcts_of s, is_hybrid_of s)

/-! ### Structure of the lexicon scorer -/

theorem foldl_add_ten (l : List (List Char)) :
    ∀ n : Nat, l.foldl (fun acc _ => acc + 10) n = n + 10 * l.length := by
  induction l with
  | nil => intro n; simp
  | cons x xs ih => intro n; simp [List.foldl, ih]; omega

/-- `sum(10 for w in ws if w in lex)` is ten times the number of hits,
counting repeated tokens each time. -/
theorem hit_sum_eq (ws lex : List (List Char)) :
    hit_sum ws lex = 10 * ws.countP (fun w => lex.contains w) := by
  rw [hit_sum, foldl_add_ten, List.countP_eq_length_filter]
  omega

/-- The Builder entry of the result is always the untouched base score:
neither adjustment changes it, and on the sentinel path it is zero anyway. -/
theorem analyze_Builder (text : List Char) :
    (analyze_archetype text).Builder = builder_score text := by
  rw [analyze_archetype]
  split
  · next h => simp only; omega
  · rfl

/-! ### Structure of the tokenizer -/

theorem tokAux_append_sep {sep : Char} (hsep : isWordChar sep = false)
    (b : List Char) :
    ∀ a acc : List Char, tokAux acc (a ++ sep :: b) = tokAux acc a ++ tokenize b := by
  intro a
  induction a with
  | nil =>
    intro acc
    by_cases hacc : acc.isEmpty
    · simp [tokAux, hsep, hacc, tokenize]
    · simp [tokAux, hsep, hacc, tokenize]
  | cons c cs ih =>
    intro acc
    by_cases hc : isWordChar c
    · simp [tokAux, hc, ih]
    · by_cases hacc : acc.isEmpty
      · simp [tokAux, hc, hacc, ih]
      · simp [tokAux, hc, hacc, ih]

/-- Tokenization splits at any non-word character: runs on the two sides of
the separator are independent. -/
theorem tokenize_append_sep {sep : Char} (hsep : isWordChar sep = false)
    (a b : List Char) : tokenize (a ++ sep :: b) = tokenize a ++ tokenize b :=
  tokAux_append_sep hsep b a []

theorem tokAux_all_word {k : List Char} (hk : k.all isWordChar = true) :
    ∀ acc : List Char,
      tokAux acc k = if (acc.reverse ++ k).isEmpty then [] else [acc.reverse ++ k] := by
  induction k with
  | nil => intro acc; simp [tokAux]
  | cons c cs ih =>
    intro acc
    simp only [List.all_cons, Bool.and_eq_true] at hk
    simp [tokAux, hk.1, ih hk.2]

/-- A nonempty all-word-character string is a single token. -/
theorem tokenize_single {k : List Char} (hne : k ≠ [])
    (hk : k.all isWordChar = true) : tokenize k = [k] := by
  rw [tokenize, tokAux_all_word hk]
  simp [hne]

/-! ### The two fractional multipliers, as real-number floors -/

theorem floor_mul_three_halves (n : Nat) :
    ⌊(n : ℚ) * 1.5⌋ = ((n * 3 / 2 : Nat) : ℤ) := by
  have h15 : ((n : ℚ)) * 1.5 = ((n * 3 : Nat) : ℤ) / ((2 : Nat) : ℚ) := by
    push_cast; ring_nf
  rw [h15, Rat.floor_intCast_div_natCast]
  exact (Int.ofNat_div _ _).symm

theorem floor_mul_one_fifth (n : Nat) :
    ⌊(n : ℚ) * 0.2⌋ = ((n / 5 : Nat) : ℤ) := by
  have h02 : ((n : ℚ)) * 0.2 = ((n : Nat) : ℤ) / ((5 : Nat) : ℚ) := by
    push_cast; ring_nf
  rw [h02, Rat.floor_intCast_div_natCast]
  exact (Int.ofNat_div _ _).symm

/-- C1. Each category's base score is 10 per matching token, occurrences
counted with repetition; and the example text scores Builder 30 / Operator 0
/ Bridge 0, Total 30, resolving to 100/0/0 with primary Builder, secondary
Operator, gap 100, not hybrid. -/
theorem claim_C1 :
    (∀ text : List Char,
      builder_score text = 10 * (words text).countP (fun w => BUILDER_VERBS.contains w) ∧
      operator_base text = 10 * (words text).countP (fun w => OPERATOR_VERBS.contains w) ∧
      bridge_base text = 10 * (words text).countP (fun w => BRIDGE_VERBS.contains w)) ∧
    analyze_archetype "I build and build and build products".data = ⟨30, 0, 0, 30⟩ ∧
    get_archetype_percentages (analyze_archetype "I build and build and build products".data) =
      (⟨100, 0, 0⟩, [("Builder", 100), ("Operator", 0), ("Bridge", 0)], false) ∧
    gapOf (analyze_archetype "I build and build and build products".data) = 100 := by
  refine ⟨fun text => ⟨hit_sum_eq _ _, hit_sum_eq _ _, hit_sum_eq _ _⟩, ?_, ?_, ?_⟩
  · with_unfolding_all decide
  · with_unfolding_all decide
  · with_unfolding_all decide

/-- C2. Adjustment A: with a commercial phrase present the Bridge score
becomes `⌊B * 1.5⌋` (truncation of the real product) of the base `B`, and
without one it is unchanged. -/
theorem claim_C2 (text : List Char) :
    (bridge_afterA text : ℤ) =
      if is_commercial text then ⌊(bridge_base text : ℚ) * 1.5⌋
      else (bridge_base text : ℤ) := by
  rw [bridge_afterA]
  by_cases h : is_commercial text
  · simp [h, floor_mul_three_halves]
  · simp [h]

/-- C3. Adjustment B: with an executive phrase present, the final Operator
and Bridge scores shift by the same `⌊O * 0.2⌋` computed from the single
pre-shift Operator value `O`; Builder is untouched. -/
theorem claim_C3 (text : List Char) (h : is_executive text = true) :
    (operator_score text : ℤ) =
      (operator_base text : ℤ) - ⌊(operator_base text : ℚ) * 0.2⌋ ∧
    (bridge_score text : ℤ) =
      (bridge_afterA text : ℤ) + ⌊(operator_base text : ℚ) * 0.2⌋ ∧
    (analyze_archetype text).Builder = builder_score text := by
  have hs : exec_shift text = operator_base text / 5 := by rw [exec_shift, if_pos h]
  refine ⟨?_, ?_, analyze_Builder text⟩
  · rw [operator_score, hs, floor_mul_one_fifth]
    have hle : operator_base text / 5 ≤ operator_base text := Nat.div_le_self _ _
    push_cast [Nat.cast_sub hle]
    ring
  · rw [bridge_score, hs, floor_mul_one_fifth]
    push_cast
    ring

/-- Witness for C3 at the concrete executive text "manage the director". -/
theorem claim_C3_witness :
    is_executive "manage the director".data = true ∧
    ((operator_score "manage the director".data : ℤ) =
      (operator_base "manage the director".data : ℤ) -
        ⌊(operator_base "manage the director".data : ℚ) * 0.2⌋ ∧
    (bridge_score "manage the director".data : ℤ) =
      (bridge_afterA "manage the director".data : ℤ) +
        ⌊(operator_base "manage the director".data : ℚ) * 0.2⌋ ∧
    (analyze_archetype "manage the director".data).Builder =
      builder_score "manage the director".data) :=
  ⟨by with_unfolding_all decide,
    claim_C3 "manage the director".data (by with_unfolding_all decide)⟩

/-- C4. With zero lexicon matches in all three categories the sentinel
`{0, 0, 0, Total 1}` is returned, so the later division is never by zero,
and resolving the sentinel gives percentages 0/0/0, gap 0, hybrid. -/
theorem claim_C4 (text : List Char)
    (hB : (words text).countP (fun w => BUILDER_VERBS.contains w) = 0)
    (hO : (words text).countP (fun w => OPERATOR_VERBS.contains w) = 0)
    (hR : (words text).countP (fun w => BRIDGE_VERBS.contains w) = 0) :
    analyze_archetype text = ⟨0, 0, 0, 1⟩ ∧
    1 ≠ 0 ∧
    get_archetype_percentages ⟨0, 0, 0, 1⟩ =
      (⟨0, 0, 0⟩, [("Builder", 0), ("Operator", 0), ("Bridge", 0)], true) ∧
    gapOf ⟨0, 0, 0, 1⟩ = 0 := by
  have hb : builder_score text = 0 := by rw [builder_score, hit_sum_eq, hB]
  have ho : operator_base text = 0 := by rw [operator_base, hit_sum_eq, hO]
  have hr : bridge_base text = 0 := by rw [bridge_base, hit_sum_eq, hR]
  have hsh : exec_shift text = 0 := by rw [exec_shift, ho]; simp
  have hba : bridge_afterA text = 0 := by rw [bridge_afterA, hr]; simp
  refine ⟨?_, by omega, by with_unfolding_all decide, by with_unfolding_all decide⟩
  rw [analyze_archetype]
  have htot : builder_score text + operator_score text + bridge_score text = 0 := by
    rw [operator_score, bridge_score, hb, ho, hsh, hba]
  rw [if_pos htot]

/-- Witness for C4 at the empty text. -/
theorem claim_C4_witness :
    (words [] : List (List Char)).countP (fun w => BUILDER_VERBS.contains w) = 0 ∧
    (words [] : List (List Char)).countP (fun w => OPERATOR_VERBS.contains w) = 0 ∧
    (words [] : List (List Char)).countP (fun w => BRIDGE_VERBS.contains w) = 0 ∧
    (analyze_archetype [] = ⟨0, 0, 0, 1⟩ ∧
      1 ≠ 0 ∧
      get_archetype_percentages ⟨0, 0, 0, 1⟩ =
        (⟨0, 0, 0⟩, [("Builder", 0), ("Operator", 0), ("Bridge", 0)], true) ∧
      gapOf ⟨0, 0, 0, 1⟩ = 0) :=
  ⟨by with_unfolding_all decide, by with_unfolding_all decide,
    by with_unfolding_all decide,
    claim_C4 [] (by with_unfolding_all decide) (by with_unfolding_all decide)
      (by with_unfolding_all decide)⟩

/-- C7. Matching is whole-word: when the standalone token "build" is absent,
the Builder score is already computed by the lexicon with "build" removed —
an occurrence inside a longer token such as "rebuild" contributes nothing.
Concretely, "rebuild" contains "build" as a substring yet scores 0. -/
theorem claim_C7 (text : List Char) (h : "build".data ∉ words text) :
    builder_score text =
      10 * (words text).countP
        (fun w => (BUILDER_VERBS.filter fun k => !(k == "build".data)).contains w) ∧
    containsSub (text_lower "rebuild".data) "build".data = true ∧
    (analyze_archetype "rebuild".data).Builder = 0 := by
  refine ⟨?_, by with_unfolding_all decide, by with_unfolding_all decide⟩
  rw [builder_score, hit_sum_eq]
  have key : ∀ w ∈ words text,
      (BUILDER_VERBS.contains w = true ↔
        ((BUILDER_VERBS.filter fun k => !(k == "build".data)).contains w = true)) := by
    intro w hw
    have hwb : ¬(w = "build".data) := fun e => h (e ▸ hw)
    simp [List.contains, List.elem_iff, List.mem_filter, hwb]
  rw [List.countP_congr key]

/-- Witness for C7 at the concrete text "rebuild". -/
theorem claim_C7_witness :
    "build".data ∉ words "rebuild".data ∧
    (builder_score "rebuild".data =
      10 * (words "rebuild".data).countP
        (fun w => (BUILDER_VERBS.filter fun k => !(k == "build".data)).contains w) ∧
    containsSub (text_lower "rebuild".data) "build".data = true ∧
    (analyze_archetype "rebuild".data).Builder = 0) :=
  ⟨by with_unfolding_all decide,
    claim_C7 "rebuild".data (by with_unfolding_all decide)⟩

/-- The configured Builder keywords are nonempty, all word characters, and
already lower case. -/
theorem builder_verbs_wf :
    ∀ k ∈ BUILDER_VERBS,
      k ≠ [] ∧ k.all isWordChar = true ∧ k.map Char.toLower = k := by
  with_unfolding_all decide

/-- C9. Appending one further whole-word occurrence of a Builder keyword
(separated by a space, changing nothing else) never decreases the Builder
score. -/
theorem claim_C9 (t k : List Char) (hk : k ∈ BUILDER_VERBS) :
    (analyze_archetype t).Builder ≤ (analyze_archetype (t ++ ' ' :: k)).Builder := by
  obtain ⟨hne, hword, hlow⟩ := builder_verbs_wf k hk
  rw [analyze_Builder, analyze_Builder, builder_score, builder_score,
    hit_sum_eq, hit_sum_eq]
  have hsplit : words (t ++ ' ' :: k) = words t ++ [k] := by
    rw [words, words, text_lower, text_lower, List.map_append, List.map_cons]
    have hsp : Char.toLower ' ' = ' ' := rfl
    have hlow2 : text_lower k = k := hlow
    rw [hsp, ← text_lower, ← text_lower,
      tokenize_append_sep (by with_unfolding_all decide), hlow2,
      tokenize_single hne hword]
  rw [hsplit, List.countP_append]
  have hkmem : List.countP (fun w => BUILDER_VERBS.contains w) [k] = 1 := by
    simp [List.countP_cons, List.contains, List.elem_iff, hk]
  omega

/-- Witness for C9: appending " build" to "manage" raises Builder 0 to 10. -/
theorem claim_C9_witness :
    "build".data ∈ BUILDER_VERBS ∧
    (analyze_archetype "manage".data).Builder ≤
      (analyze_archetype ("manage".data ++ ' ' :: "build".data)).Builder :=
  ⟨by with_unfolding_all decide,
    claim_C9 "manage".data "build".data (by with_unfolding_all decide)⟩

/-- Position of a category name in the original iteration order
Builder, Operator, Bridge. -/
def catIdx : String → Nat
  | "Builder" => 0
  | "Operator" => 1
  | "Bridge" => 2
  | _ => 3

/-- The three-element stable descending sort, characterised: the output is
the same three pairs, descending in the percentage, and two equal
percentages keep the original Builder → Operator → Bridge order. -/
theorem sortDesc_spec (pb po pr : ℤ) :
    ∃ a b c : String × ℤ,
      sortDesc [("Builder", pb), ("Operator", po), ("Bridge", pr)] = [a, b, c] ∧
      ("Builder", pb) ∈ [a, b, c] ∧
      ("Operator", po) ∈ [a, b, c] ∧
      ("Bridge", pr) ∈ [a, b, c] ∧
      b.2 ≤ a.2 ∧ c.2 ≤ b.2 ∧
      (a.2 = b.2 → catIdx a.1 < catIdx b.1) ∧
      (b.2 = c.2 → catIdx b.1 < catIdx c.1) ∧
      (a.2 = c.2 → catIdx a.1 < catIdx c.1) := by
  by_cases h1 : pr ≤ po
  · by_cases h2 : po ≤ pb
    · refine ⟨("Builder", pb), ("Operator", po), ("Bridge", pr),
        by simp [sortDesc, insertDesc, h1, h2], by simp, by simp, by simp,
        h2, h1, ?_, ?_, ?_⟩ <;> intro h <;> simp [catIdx]
    · by_cases h3 : pr ≤ pb
      · refine ⟨("Operator", po), ("Builder", pb), ("Bridge", pr),
          by simp [sortDesc, insertDesc, h1, h2, h3], by simp, by simp, by simp,
          by omega, h3, ?_, ?_, ?_⟩ <;> intro h <;> simp [catIdx] <;> omega
      · refine ⟨("Operator", po), ("Bridge", pr), ("Builder", pb),
          by simp [sortDesc, insertDesc, h1, h2, h3], by simp, by simp, by simp,
          h1, by omega, ?_, ?_, ?_⟩ <;> intro h <;> simp [catIdx] <;> omega
  · by_cases h2 : pr ≤ pb
    · refine ⟨("Builder", pb), ("Bridge", pr), ("Operator", po),
        by simp [sortDesc, insertDesc, h1, h2], by simp, by simp, by simp,
        h2, by omega, ?_, ?_, ?_⟩ <;> intro h <;> simp [catIdx] <;> omega
    · by_cases h3 : po ≤ pb
      · refine ⟨("Bridge", pr), ("Builder", pb), ("Operator", po),
          by simp [sortDesc, insertDesc, h1, h2, h3], by simp, by simp, by simp,
          by omega, h3, ?_, ?_, ?_⟩ <;> intro h <;> simp [catIdx] <;> omega
      · refine ⟨("Bridge", pr), ("Operator", po), ("Builder", pb),
          by simp [sortDesc, insertDesc, h1, h2, h3], by simp, by simp, by simp,
          by omega, by omega, ?_, ?_, ?_⟩ <;> intro h <;> simp [catIdx] <;> omega

/-- C5. `resolve` sorts the three pairs descending by percentage with the
stable tie order Builder, Operator, Bridge; and a 2-Builder-hit,
2-Operator-hit text gives 50/50/0 with Builder ranked first, gap 0,
hybrid. -/
theorem claim_C5 :
    (∀ s : ScoreSet,
      ∃ a b c : String × ℤ,
        sorted_pcts_of s = [a, b, c] ∧
        ("Builder", (pctOf s).Builder) ∈ [a, b, c] ∧
        ("Operator", (pctOf s).Operator) ∈ [a, b, c] ∧
        ("Bridge", (pctOf s).Bridge) ∈ [a, b, c] ∧
        b.2 ≤ a.2 ∧ c.2 ≤ b.2 ∧
        (a.2 = b.2 → catIdx a.1 < catIdx b.1) ∧
        (b.2 = c.2 → catIdx b.1 < catIdx c.1) ∧
        (a.2 = c.2 → catIdx a.1 < catIdx c.1)) ∧
    analyze_archetype "build build manage manage".data = ⟨20, 20, 0, 40⟩ ∧
    get_archetype_percentages (analyze_archetype "build build manage manage".data) =
      (⟨50, 50, 0⟩, [("Builder", 50), ("Operator", 50), ("Bridge", 0)], true) ∧
    gapOf (analyze_archetype "build build manage manage".data) = 0 := by
  refine ⟨fun s => sortDesc_spec _ _ _, ?_, ?_, ?_⟩
  · with_unfolding_all decide
  · with_unfolding_all decide
  · with_unfolding_all decide

/-- C6. The hybrid flag returned by `resolve` is true exactly when the
rank-0 percentage exceeds the rank-1 percentage by strictly less than 20,
and the returned percentages and ranking are exactly the ones computed
before the flag. -/
theorem claim_C6 (s : ScoreSet) :
    ((get_archetype_percentages s).2.2 = true ↔
      ((sorted_pcts_of s).getD 0 ("", 0)).2 -
        ((sorted_pcts_of s).getD 1 ("", 0)).2 < 20) ∧
    (get_archetype_percentages s).1 = pctOf s ∧
    (get_archetype_percentages s).2.1 = sorted_pcts_of s := by
  refine ⟨?_, rfl, rfl⟩
  simp [get_archetype_percentages, is_hybrid_of, gapOf]

/-! ### Accuracy of the double-precision model -/

/-- Rounding to the nearest integer moves a value by at most one half. -/
theorem roundHalfEven_err (q : ℚ) : |(roundHalfEven q : ℚ) - q| ≤ 1 / 2 := by
  have h1 : ((⌊q⌋ : ℤ) : ℚ) ≤ q := Int.floor_le q
  have h2 : q < ((⌊q⌋ : ℤ) : ℚ) + 1 := Int.lt_floor_add_one q
  rw [roundHalfEven]
  split_ifs with ha hb hc <;>
    (rw [abs_le]; push_cast; constructor <;> linarith)

theorem natLog2Aux_spec :
    ∀ fuel n : Nat, 1 ≤ n → n ≤ 2 ^ fuel →
      2 ^ natLog2Aux fuel n ≤ n ∧ n < 2 ^ (natLog2Aux fuel n + 1) := by
  intro fuel
  induction fuel with
  | zero =>
    intro n h1 h2
    have hn : n = 1 := by simpa using le_antisymm h2 h1
    subst hn
    simp [natLog2Aux]
  | succ fuel ih =>
    intro n h1 h2
    rw [natLog2Aux]
    by_cases hn : 2 ≤ n
    · rw [if_pos hn]
      rw [pow_succ] at h2
      obtain ⟨ih1, ih2⟩ := ih (n / 2) (by omega) (by omega)
      rw [pow_succ] at ih2
      refine ⟨?_, ?_⟩
      · rw [pow_succ]; omega
      · rw [pow_succ, pow_succ]; omega
    · rw [if_neg hn]
      have hn1 : n = 1 := by omega
      subst hn1
      simp

theorem natLog2_spec (n : Nat) (h : 1 ≤ n) :
    2 ^ natLog2 n ≤ n ∧ n < 2 ^ (natLog2 n + 1) :=
  natLog2Aux_spec n n h (Nat.le_of_lt (Nat.lt_two_pow n))

/-- `ilog2q` brackets a positive rational between consecutive powers of 2. -/
theorem ilog2q_spec (q : ℚ) (hq : 0 < q) :
    (2 : ℚ) ^ ilog2q q ≤ q ∧ q < (2 : ℚ) ^ (ilog2q q + 1) := by
  have hnum : 0 < q.num := Rat.num_pos.mpr hq
  have ha1 : 1 ≤ q.num.toNat := by omega
  have hb1 : 1 ≤ q.den := q.den_pos
  obtain ⟨la1, la2⟩ := natLog2_spec q.num.toNat ha1
  obtain ⟨lb1, lb2⟩ := natLog2_spec q.den hb1
  have hbpos : (0 : ℚ) < (q.den : ℚ) := by exact_mod_cast hb1
  have hq_eq : q = ((q.num.toNat : ℕ) : ℚ) / ((q.den : ℕ) : ℚ) := by
    have hcast : (((q.num.toNat : ℕ) : ℤ) : ℚ) = ((q.num : ℤ) : ℚ) := by
      rw [Int.toNat_of_nonneg hnum.le]
    push_cast at hcast
    rw [hcast, Rat.num_div_den]
  set la := natLog2 q.num.toNat with hla
  set lb := natLog2 q.den with hlb
  have h2ne : (2 : ℚ) ≠ 0 := two_ne_zero
  have hupper : q < (2 : ℚ) ^ ((la : ℤ) - lb + 1) := by
    rw [hq_eq, div_lt_iff hbpos]
    calc ((q.num.toNat : ℕ) : ℚ) < ((2 ^ (la + 1) : ℕ) : ℚ) := by exact_mod_cast la2
      _ = (2 : ℚ) ^ ((la : ℤ) + 1) := by
          push_cast
          rw [← zpow_natCast (2 : ℚ) (la + 1)]
          push_cast
          ring_nf
      _ = (2 : ℚ) ^ ((la : ℤ) - lb + 1) * (2 : ℚ) ^ (lb : ℤ) := by
          rw [← zpow_add₀ h2ne]
          ring_nf
      _ ≤ (2 : ℚ) ^ ((la : ℤ) - lb + 1) * (q.den : ℚ) := by
          apply mul_le_mul_of_nonneg_left ?_ (zpow_pos (by norm_num) _).le
          calc (2 : ℚ) ^ (lb : ℤ) = ((2 ^ lb : ℕ) : ℚ) := by
                rw [zpow_natCast]; norm_cast
            _ ≤ (q.den : ℚ) := by exact_mod_cast lb1
  have hlower : (2 : ℚ) ^ ((la : ℤ) - lb - 1) < q := by
    rw [hq_eq, lt_div_iff hbpos]
    calc (2 : ℚ) ^ ((la : ℤ) - lb - 1) * (q.den : ℚ)
        < (2 : ℚ) ^ ((la : ℤ) - lb - 1) * (2 : ℚ) ^ ((lb : ℤ) + 1) := by
          apply mul_lt_mul_of_pos_left ?_ (zpow_pos (by norm_num) _)
          calc (q.den : ℚ) < ((2 ^ (lb + 1) : ℕ) : ℚ) := by exact_mod_cast lb2
            _ = (2 : ℚ) ^ ((lb : ℤ) + 1) := by
                push_cast
                rw [← zpow_natCast (2 : ℚ) (lb + 1)]
                push_cast
                ring_nf
      _ = (2 : ℚ) ^ (la : ℤ) := by rw [← zpow_add₀ h2ne]; ring_nf
      _ ≤ ((q.num.toNat : ℕ) : ℚ) := by
          calc (2 : ℚ) ^ (la : ℤ) = ((2 ^ la : ℕ) : ℚ) := by
                rw [zpow_natCast]; norm_cast
            _ ≤ ((q.num.toNat : ℕ) : ℚ) := by exact_mod_cast la1
  rw [ilog2q, ← hla, ← hlb]
  by_cases h : (2 : ℚ) ^ ((la : ℤ) - lb) ≤ q
  · rw [if_pos h]
    exact ⟨h, hupper⟩
  · rw [if_neg h]
    refine ⟨hlower.le, ?_⟩
    have : (la : ℤ) - lb - 1 + 1 = (la : ℤ) - lb := by ring
    rw [this]
    exact lt_of_not_ge fun hge => h hge

/-- One rounded double operation has relative error at most `2 ^ (-52)`. -/
theorem flround_err (q : ℚ) (hq : 0 ≤ q) : |flround q - q| ≤ q / 2 ^ 52 := by
  rw [flround]
  split_ifs with h
  · have hq0 : q = 0 := le_antisymm h hq
    subst hq0
    simp
  · have hq' : 0 < q := lt_of_not_ge h
    obtain ⟨hd1, _⟩ := ilog2q_spec q hq'
    set d := ilog2q q with hd
    set e : ℤ := 52 - d with he
    have hepos : (0 : ℚ) < 2 ^ e := zpow_pos (by norm_num) e
    have hkey : |(roundHalfEven (q * 2 ^ e) : ℚ) - q * 2 ^ e| ≤ 1 / 2 :=
      roundHalfEven_err _
    have hval : (roundHalfEven (q * 2 ^ e) : ℚ) / 2 ^ e - q =
        ((roundHalfEven (q * 2 ^ e) : ℚ) - q * 2 ^ e) / 2 ^ e := by
      field_simp
      ring
    rw [hval, abs_div, abs_of_pos hepos, div_le_div_iff hepos (by norm_num)]
    have h52 : (2 : ℚ) ^ (52 : ℕ) = (2 : ℚ) ^ (52 : ℤ) := by
      rw [← zpow_natCast (2 : ℚ) 52]
      norm_num
    calc |(roundHalfEven (q * 2 ^ e) : ℚ) - q * 2 ^ e| * 2 ^ (52 : ℕ)
        ≤ (1 / 2) * 2 ^ (52 : ℕ) := by
          apply mul_le_mul_of_nonneg_right hkey (by positivity)
      _ ≤ 1 * 2 ^ (52 : ℕ) := by
          apply mul_le_mul_of_nonneg_right (by norm_num) (by positivity)
      _ = (2 : ℚ) ^ (52 : ℤ) := by rw [one_mul, h52]
      _ = (2 : ℚ) ^ d * (2 : ℚ) ^ e := by
          rw [← zpow_add₀ (two_ne_zero : (2 : ℚ) ≠ 0)]
          rw [he]
          ring_nf
      _ ≤ q * 2 ^ e := mul_le_mul_of_nonneg_right hd1 hepos.le

/-- The double model never produces a negative value from a nonnegative
input. -/
theorem flround_nonneg (q : ℚ) (hq : 0 ≤ q) : 0 ≤ flround q := by
  have h := flround_err q hq
  rw [abs_le] at h
  have h2 : q / 2 ^ 52 ≤ q := div_le_self hq (by norm_num)
  linarith [h.1]

/-- Rounded percentage accuracy: the integer each category receives is
within `1/2 + 2 ^ (-43)` of the exact percentage `100 * score / total`. -/
theorem pct_err (s t : Nat) (ht : 0 < t) (hs : s ≤ t) :
    |(pct s t : ℚ) - (s : ℚ) / (t : ℚ) * 100| ≤ 1 / 2 + 1 / 2 ^ 43 := by
  have htq : (0 : ℚ) < (t : ℚ) := by exact_mod_cast ht
  set q0 : ℚ := (s : ℚ) / (t : ℚ) with hq0
  have hq0nn : 0 ≤ q0 := by positivity
  have hq0le : q0 ≤ 1 := by
    rw [hq0, div_le_one htq]
    exact_mod_cast hs
  have hpow : (0 : ℚ) < 2 ^ 52 := by norm_num
  have h1 : |flround q0 - q0| ≤ q0 / 2 ^ 52 := flround_err q0 hq0nn
  have h1' : |flround q0 - q0| ≤ 1 / 2 ^ 52 :=
    le_trans h1 ((div_le_div_right hpow).mpr hq0le)
  have hpnn : 0 ≤ flround q0 := flround_nonneg q0 hq0nn
  have hple : flround q0 ≤ 1 + 1 / 2 ^ 52 := by
    have := abs_le.mp h1'
    linarith [this.2]
  have hy0nn : 0 ≤ flround q0 * 100 := by positivity
  have h2 : |flround (flround q0 * 100) - flround q0 * 100| ≤
      flround q0 * 100 / 2 ^ 52 := flround_err _ hy0nn
  have hy0le : flround q0 * 100 ≤ 101 := by nlinarith
  have h2' : |flround (flround q0 * 100) - flround q0 * 100| ≤ 101 / 2 ^ 52 :=
    le_trans h2 ((div_le_div_right hpow).mpr hy0le)
  have h3 : |(roundHalfEven (flround (flround q0 * 100)) : ℚ) -
      flround (flround q0 * 100)| ≤ 1 / 2 := roundHalfEven_err _
  have hsplit : |(pct s t : ℚ) - q0 * 100| ≤
      |(roundHalfEven (flround (flround q0 * 100)) : ℚ) -
        flround (flround q0 * 100)| +
      |flround (flround q0 * 100) - flround q0 * 100| +
      |flround q0 * 100 - q0 * 100| := by
    rw [pct, ← hq0]
    have t1 := abs_sub_le
      ((roundHalfEven (flround (flround q0 * 100)) : ℚ))
      (flround (flround q0 * 100)) (q0 * 100)
    have t2 := abs_sub_le (flround (flround q0 * 100)) (flround q0 * 100)
      (q0 * 100)
    linarith
  have hlast : |flround q0 * 100 - q0 * 100| ≤ 100 / 2 ^ 52 := by
    have : flround q0 * 100 - q0 * 100 = (flround q0 - q0) * 100 := by ring
    rw [this, abs_mul]
    have h100 : |(100 : ℚ)| = 100 := by norm_num
    rw [h100]
    calc |flround q0 - q0| * 100 ≤ 1 / 2 ^ 52 * 100 :=
          mul_le_mul_of_nonneg_right h1' (by norm_num)
      _ = 100 / 2 ^ 52 := by ring
  calc |(pct s t : ℚ) - q0 * 100| ≤
        1 / 2 + 101 / 2 ^ 52 + 100 / 2 ^ 52 := by linarith
    _ ≤ 1 / 2 + 1 / 2 ^ 43 := by norm_num

/-- C8 (amended). Each percentage is `round(score/Total*100)` evaluated in
double precision: a correctly rounded division, a correctly rounded
multiplication by 100, then round-half-to-even of the resulting double.
The result always lies within `1/2 + 2 ^ (-43)` of the exact percentage,
but at exact half-integer boundaries the double evaluation may land on
either side, so ties are not resolved on the exact rational value. -/
theorem claim_C8 (s t : Nat) (ht : 0 < t) (hs : s ≤ t) :
    pct s t = roundHalfEven (flround (flround ((s : ℚ) / (t : ℚ)) * 100)) ∧
    |(pct s t : ℚ) - (s : ℚ) / (t : ℚ) * 100| ≤ 1 / 2 + 1 / 2 ^ 43 :=
  ⟨rfl, pct_err s t ht hs⟩

/-- Witness for C8 at score 1 of total 2. -/
theorem claim_C8_witness :
    0 < 2 ∧ 1 ≤ 2 ∧
    (pct 1 2 = roundHalfEven (flround (flround ((1 : ℚ) / (2 : ℚ)) * 100)) ∧
      |(pct 1 2 : ℚ) - (1 : ℚ) / (2 : ℚ) * 100| ≤ 1 / 2 + 1 / 2 ^ 43) :=
  ⟨by norm_num, by norm_num, claim_C8 1 2 (by norm_num) (by norm_num)⟩

/-- Counterexample to C8 as stated.  For the ScoreSet
`{Builder 23, Operator 17, Bridge 0, Total 40}` the exact Builder
percentage is `57.5`, and rounding the exact value half-to-even gives 58;
but the double evaluation of `23/40*100` falls just below `57.5`, so the
program returns 57. -/
theorem claim_C8_counterexample :
    (pctOf ⟨23, 17, 0, 40⟩).Builder = 57 ∧
    (23 : ℚ) / (40 : ℚ) * 100 = 115 / 2 ∧
    roundHalfEven ((23 : ℚ) / (40 : ℚ) * 100) = 58 ∧
    (pctOf ⟨23, 17, 0, 40⟩).Builder ≠ roundHalfEven ((23 : ℚ) / (40 : ℚ) * 100) := by
  refine ⟨?_, ?_, ?_, ?_⟩ <;> with_unfolding_all decide

/-- C10. For a text with at least one lexicon hit (the result is not the
all-zero sentinel), the three independently rounded percentages sum to
99, 100 or 101. -/
theorem claim_C10 (text : List Char)
    (h : analyze_archetype text ≠ ⟨0, 0, 0, 1⟩) :
    (pctOf (analyze_archetype text)).Builder +
        (pctOf (analyze_archetype text)).Operator +
        (pctOf (analyze_archetype text)).Bridge = 99 ∨
    (pctOf (analyze_archetype text)).Builder +
        (pctOf (analyze_archetype text)).Operator +
        (pctOf (analyze_archetype text)).Bridge = 100 ∨
    (pctOf (analyze_archetype text)).Builder +
        (pctOf (analyze_archetype text)).Operator +
        (pctOf (analyze_archetype text)).Bridge = 101 := by
  by_cases h0 : builder_score text + operator_score text + bridge_score text = 0
  · exact absurd (by rw [analyze_archetype, if_pos h0]) h
  · have hana : analyze_archetype text =
        ⟨builder_score text, operator_score text, bridge_score text,
          builder_score text + operator_score text + bridge_score text⟩ := by
      rw [analyze_archetype, if_neg h0]
    rw [hana]
    simp only [pctOf]
    set B := builder_score text with hB
    set O := operator_score text with hO
    set R := bridge_score text with hR
    set T := B + O + R with hT
    have hTpos : 0 < T := Nat.pos_of_ne_zero h0
    have hTq : (0 : ℚ) < (T : ℚ) := by exact_mod_cast hTpos
    have eB := pct_err B T hTpos (by omega)
    have eO := pct_err O T hTpos (by omega)
    have eR := pct_err R T hTpos (by omega)
    have hcast : (B : ℚ) + (O : ℚ) + (R : ℚ) = (T : ℚ) := by
      rw [hT]; push_cast; ring
    have hsum : (B : ℚ) / (T : ℚ) * 100 + (O : ℚ) / (T : ℚ) * 100 +
        (R : ℚ) / (T : ℚ) * 100 = 100 := by
      have hcombine : (B : ℚ) / (T : ℚ) * 100 + (O : ℚ) / (T : ℚ) * 100 +
          (R : ℚ) / (T : ℚ) * 100 =
          ((B : ℚ) + (O : ℚ) + (R : ℚ)) / (T : ℚ) * 100 := by ring
      rw [hcombine, hcast, div_self (ne_of_gt hTq), one_mul]
    have hdecomp : ((pct B T : ℚ) + (pct O T : ℚ) + (pct R T : ℚ)) - 100 =
        ((pct B T : ℚ) - (B : ℚ) / (T : ℚ) * 100) +
        ((pct O T : ℚ) - (O : ℚ) / (T : ℚ) * 100) +
        ((pct R T : ℚ) - (R : ℚ) / (T : ℚ) * 100) := by
      linear_combination hsum
    have habs : |((pct B T : ℚ) + (pct O T : ℚ) + (pct R T : ℚ)) - 100| ≤
        3 / 2 + 3 / 2 ^ 43 := by
      rw [hdecomp]
      have t1 := abs_add
        (((pct B T : ℚ) - (B : ℚ) / (T : ℚ) * 100) +
          ((pct O T : ℚ) - (O : ℚ) / (T : ℚ) * 100))
        ((pct R T : ℚ) - (R : ℚ) / (T : ℚ) * 100)
      have t2 := abs_add ((pct B T : ℚ) - (B : ℚ) / (T : ℚ) * 100)
        ((pct O T : ℚ) - (O : ℚ) / (T : ℚ) * 100)
      linarith
    have hpair := abs_le.mp habs
    have hlow : (98 : ℤ) < pct B T + pct O T + pct R T := by
      have hq : (98 : ℚ) < ((pct B T + pct O T + pct R T : ℤ) : ℚ) := by
        push_cast
        linarith [hpair.1, show (3 : ℚ) / 2 + 3 / 2 ^ 43 < 2 by norm_num]
      exact_mod_cast hq
    have hhigh : pct B T + pct O T + pct R T < 102 := by
      have hq : ((pct B T + pct O T + pct R T : ℤ) : ℚ) < 102 := by
        push_cast
        linarith [hpair.2, show (3 : ℚ) / 2 + 3 / 2 ^ 43 < 2 by norm_num]
      exact_mod_cast hq
    omega

/-- Witness for C10 at the one-hit text "build" (percentages 100/0/0). -/
theorem claim_C10_witness :
    analyze_archetype "build".data ≠ ⟨0, 0, 0, 1⟩ ∧
    ((pctOf (analyze_archetype "build".data)).Builder +
        (pctOf (analyze_archetype "build".data)).Operator +
        (pctOf (analyze_archetype "build".data)).Bridge = 99 ∨
      (pctOf (analyze_archetype "build".data)).Builder +
        (pctOf (analyze_archetype "build".data)).Operator +
        (pctOf (analyze_archetype "build".data)).Bridge = 100 ∨
      (pctOf (analyze_archetype "build".data)).Builder +
        (pctOf (analyze_archetype "build".data)).Operator +
        (pctOf (analyze_archetype "build".data)).Bridge = 101) :=
  ⟨by with_unfolding_all decide,
    claim_C10 "build".data (by with_unfolding_all decide)⟩

end Tether
